import Mathlib

/-!
# Four-bar linkage position analysis: verified model

Shallow embedding of the kinematics core of the four-bar linkage analyzer
(`src/utils/math.ts`: `toRad`, `toDeg`, `solveLinkage`, `computeTrajectory`,
and the `LinkageConfig` / `LinkageSolution` / `TrajectoryPoint` records from
`src/types.ts`).  JavaScript numbers are modelled as real numbers extended
with an explicit not-a-number sentinel (`JsNum.nan`); the only place the
source produces `NaN` is the invalid-assembly early return, so every other
arithmetic step stays inside the finite reals.
-/

namespace FourBar

noncomputable section

/-- A JavaScript number as the solver uses it: either the `NaN` sentinel or a
finite real value. -/
inductive JsNum where
  | nan : JsNum
  | fin : ℝ → JsNum
  deriving DecidableEq

/-- The `mode` string field of a solution: `'open'` or `'crossed'`. -/
inductive ModeLabel where
  | openM : ModeLabel
  | crossedM : ModeLabel
  deriving DecidableEq

/-- The `assemblyMode` argument, the TypeScript union type `-1 | 1`
(`opn` stands for `1`, `crossed` for `-1`). -/
inductive AssemblyMode where
  | opn : AssemblyMode
  | crossed : AssemblyMode
  deriving DecidableEq

/-- `LinkageConfig` from `src/types.ts`: link lengths, coupler-point offset
and driver angle (degrees). -/
structure LinkageConfig where
  r1 : ℝ
  r2 : ℝ
  r3 : ℝ
  r4 : ℝ
  r6 : ℝ
  beta : ℝ
  theta2 : ℝ

/-- `LinkageSolution` from `src/types.ts`. -/
structure LinkageSolution where
  Ax : JsNum
  Ay : JsNum
  Bx : JsNum
  By : JsNum
  Cx : JsNum
  Cy : JsNum
  theta3 : JsNum
  theta4 : JsNum
  isValid : Bool
  mode : ModeLabel

/-- `TrajectoryPoint` from `src/types.ts`. -/
structure TrajectoryPoint where
  theta2 : ℝ
  theta3 : JsNum
  theta4 : JsNum
  Cx : JsNum
  Cy : JsNum

/-- `toRad` from `src/utils/math.ts`: `(deg * Math.PI) / 180`. -/
def toRad (deg : ℝ) : ℝ := deg * Real.pi / 180

/-- `toDeg` from `src/utils/math.ts`: `(rad * 180) / Math.PI`. -/
def toDeg (rad : ℝ) : ℝ := rad * 180 / Real.pi

/-- `Math.atan2(y, x)` on finite reals: the argument of the complex number
`x + y i`, with range `(-π, π]` and `atan2 0 0 = 0`. -/
def atan2 (y x : ℝ) : ℝ := Complex.arg ⟨x, y⟩

/-- `Ax = r2 * Math.cos(theta2Rad)` in `solveLinkage`. -/
def jointAx (c : LinkageConfig) : ℝ := c.r2 * Real.cos (toRad c.theta2)

/-- `Ay = r2 * Math.sin(theta2Rad)` in `solveLinkage`. -/
def jointAy (c : LinkageConfig) : ℝ := c.r2 * Real.sin (toRad c.theta2)

/-- `d2 = (Ax - B_star.x) ** 2 + (Ay - B_star.y) ** 2` with `B_star = (r1, 0)`. -/
def d2 (c : LinkageConfig) : ℝ := (jointAx c - c.r1) ^ 2 + (jointAy c - 0) ^ 2

/-- `d = Math.sqrt(d2)`: distance from joint A to the second fixed pivot. -/
def d (c : LinkageConfig) : ℝ := Real.sqrt (d2 c)

/-- `a = (r3 ** 2 - r4 ** 2 + d2) / (2 * d)` in `solveLinkage`. -/
def aLen (c : LinkageConfig) : ℝ := (c.r3 ^ 2 - c.r4 ^ 2 + d2 c) / (2 * d c)

/-- `h = Math.sqrt(Math.max(0, r3 ** 2 - a ** 2))` in `solveLinkage`. -/
def hLen (c : LinkageConfig) : ℝ := Real.sqrt (max 0 (c.r3 ^ 2 - aLen c ^ 2))

/-- `x2 = Ax + (a * (B_star.x - Ax)) / d`: foot of the radical line. -/
def footX (c : LinkageConfig) : ℝ := jointAx c + aLen c * (c.r1 - jointAx c) / d c

/-- `y2 = Ay + (a * (B_star.y - Ay)) / d`. -/
def footY (c : LinkageConfig) : ℝ := jointAy c + aLen c * (0 - jointAy c) / d c

/-- `x3_1 = x2 + (h * (B_star.y - Ay)) / d`: first intersection candidate. -/
def bx1 (c : LinkageConfig) : ℝ := footX c + hLen c * (0 - jointAy c) / d c

/-- `y3_1 = y2 - (h * (B_star.x - Ax)) / d`. -/
def by1 (c : LinkageConfig) : ℝ := footY c - hLen c * (c.r1 - jointAx c) / d c

/-- `x3_2 = x2 - (h * (B_star.y - Ay)) / d`: second intersection candidate. -/
def bx2 (c : LinkageConfig) : ℝ := footX c - hLen c * (0 - jointAy c) / d c

/-- `y3_2 = y2 + (h * (B_star.x - Ax)) / d`. -/
def by2 (c : LinkageConfig) : ℝ := footY c + hLen c * (c.r1 - jointAx c) / d c

/-- `Bx = assemblyMode === 1 ? x3_1 : x3_2`. -/
def selBx (c : LinkageConfig) : AssemblyMode → ℝ
  | .opn => bx1 c
  | .crossed => bx2 c

/-- `By = assemblyMode === 1 ? y3_1 : y3_2`. -/
def selBy (c : LinkageConfig) : AssemblyMode → ℝ
  | .opn => by1 c
  | .crossed => by2 c

/-- `theta3Rad = Math.atan2(By - Ay, Bx - Ax)`. -/
def theta3Rad (c : LinkageConfig) (m : AssemblyMode) : ℝ :=
  atan2 (selBy c m - jointAy c) (selBx c m - jointAx c)

/-- `theta4Rad = Math.atan2(By - B_star.y, Bx - B_star.x)`. -/
def theta4Rad (c : LinkageConfig) (m : AssemblyMode) : ℝ :=
  atan2 (selBy c m - 0) (selBx c m - c.r1)

/-- `angleAC = theta3Rad + betaRad`. -/
def angleAC (c : LinkageConfig) (m : AssemblyMode) : ℝ :=
  theta3Rad c m + toRad c.beta

/-- `Cx = Ax + r6 * Math.cos(angleAC)`. -/
def cxVal (c : LinkageConfig) (m : AssemblyMode) : ℝ :=
  jointAx c + c.r6 * Real.cos (angleAC c m)

/-- `Cy = Ay + r6 * Math.sin(angleAC)`. -/
def cyVal (c : LinkageConfig) (m : AssemblyMode) : ℝ :=
  jointAy c + c.r6 * Real.sin (angleAC c m)

/-- `assemblyMode === 1 ? 'open' : 'crossed'`. -/
def modeLabel : AssemblyMode → ModeLabel
  | .opn => .openM
  | .crossed => .crossedM

/-- `solveLinkage` from `src/utils/math.ts`: circle-circle intersection
position solver.  The guard mirrors
`if (d > r3 + r4 || d < Math.abs(r3 - r4) || d === 0)`, whose branch returns
the pose with `Bx … theta4` all `NaN` and `isValid: false`; otherwise the
chosen intersection candidate, the angles and the coupler point are
returned with `isValid: true`. -/
def solveLinkage (c : LinkageConfig) (m : AssemblyMode) : LinkageSolution :=
  if d c > c.r3 + c.r4 ∨ d c < |c.r3 - c.r4| ∨ d c = 0 then
    { Ax := .fin (jointAx c), Ay := .fin (jointAy c),
      Bx := .nan, By := .nan, Cx := .nan, Cy := .nan,
      theta3 := .nan, theta4 := .nan, isValid := false, mode := modeLabel m }
  else
    { Ax := .fin (jointAx c), Ay := .fin (jointAy c),
      Bx := .fin (selBx c m), By := .fin (selBy c m),
      Cx := .fin (cxVal c m), Cy := .fin (cyVal c m),
      theta3 := .fin (toDeg (theta3Rad c m)),
      theta4 := .fin (toDeg (theta4Rad c m)),
      isValid := true, mode := modeLabel m }

/-- The record pushed by `computeTrajectory` for a sampled driver angle:
`{ theta2: t2, theta3: sol.theta3, theta4: sol.theta4, Cx: sol.Cx, Cy: sol.Cy }`
where `sol = solveLinkage({ ...config, theta2: t2 }, assemblyMode)`. -/
def trajPoint (c : LinkageConfig) (m : AssemblyMode) (t2 : ℝ) : TrajectoryPoint :=
  { theta2 := t2,
    theta3 := (solveLinkage { c with theta2 := t2 } m).theta3,
    theta4 := (solveLinkage { c with theta2 := t2 } m).theta4,
    Cx := (solveLinkage { c with theta2 := t2 } m).Cx,
    Cy := (solveLinkage { c with theta2 := t2 } m).Cy }

/-- `computeTrajectory` from `src/utils/math.ts`: the loop
`for (let t2 = 0; t2 <= 360; t2 += 2)` visits the 181 driver angles
`0, 2, …, 360` in increasing order, and pushes the reduced record of each
sample whose solution `isValid`. -/
def computeTrajectory (c : LinkageConfig) (m : AssemblyMode) : List TrajectoryPoint :=
  ((List.range 181).map fun k : ℕ => (2 * k : ℝ)).filterMap fun t2 =>
    if (solveLinkage { c with theta2 := t2 } m).isValid then
      some (trajPoint c m t2)
    else none

/-- The app's default configuration (`src/App.tsx`): r1 = 1, r2 = 2, r3 = 3.5,
r4 = 4, r6 = √5, beta = arctan(1/2) in degrees, theta2 = 0. -/
def cfg0 : LinkageConfig :=
  { r1 := 1, r2 := 2, r3 := 3.5, r4 := 4, r6 := Real.sqrt 5,
    beta := toDeg (Real.arctan (1 / 2)), theta2 := 0 }

/-- The spec's unreachable-geometry scenario: r1 = 10, r2 = 1, r3 = 1, r4 = 1,
theta2 = 0 (coupler-point data immaterial, set to 0). -/
def cexCfg : LinkageConfig :=
  { r1 := 10, r2 := 1, r3 := 1, r4 := 1, r6 := 0, beta := 0, theta2 := 0 }

/-- `cfg0` with a different driver angle, for the theta2-independence check. -/
def cfg0' : LinkageConfig := { cfg0 with theta2 := 90 }

end

/-! ## Basic facts about the embedded solver -/

theorem d2_nonneg (c : LinkageConfig) : 0 ≤ d2 c :=
  add_nonneg (sq_nonneg _) (sq_nonneg _)

theorem d_nonneg (c : LinkageConfig) : 0 ≤ d c :=
  Real.sqrt_nonneg _

theorem d_sq (c : LinkageConfig) : d c ^ 2 = d2 c :=
  Real.sq_sqrt (d2_nonneg c)

theorem isValid_false_iff (c : LinkageConfig) (m : AssemblyMode) :
    (solveLinkage c m).isValid = false ↔
      (d c > c.r3 + c.r4 ∨ d c < |c.r3 - c.r4| ∨ d c = 0) := by
  unfold solveLinkage
  split <;> simp_all

theorem isValid_true_iff (c : LinkageConfig) (m : AssemblyMode) :
    (solveLinkage c m).isValid = true ↔
      ¬(d c > c.r3 + c.r4 ∨ d c < |c.r3 - c.r4| ∨ d c = 0) := by
  unfold solveLinkage
  split <;> simp_all

theorem solveLinkage_invalid_eq (c : LinkageConfig) (m : AssemblyMode)
    (hv : (solveLinkage c m).isValid = false) :
    solveLinkage c m =
      { Ax := .fin (jointAx c), Ay := .fin (jointAy c),
        Bx := .nan, By := .nan, Cx := .nan, Cy := .nan,
        theta3 := .nan, theta4 := .nan, isValid := false, mode := modeLabel m } := by
  rw [isValid_false_iff] at hv
  unfold solveLinkage
  rw [if_pos hv]

theorem solveLinkage_valid_eq (c : LinkageConfig) (m : AssemblyMode)
    (hv : (solveLinkage c m).isValid = true) :
    solveLinkage c m =
      { Ax := .fin (jointAx c), Ay := .fin (jointAy c),
        Bx := .fin (selBx c m), By := .fin (selBy c m),
        Cx := .fin (cxVal c m), Cy := .fin (cyVal c m),
        theta3 := .fin (toDeg (theta3Rad c m)),
        theta4 := .fin (toDeg (theta4Rad c m)),
        isValid := true, mode := modeLabel m } := by
  rw [isValid_true_iff] at hv
  unfold solveLinkage
  rw [if_neg hv]

theorem valid_bounds (c : LinkageConfig) (m : AssemblyMode)
    (hv : (solveLinkage c m).isValid = true) :
    d c ≤ c.r3 + c.r4 ∧ |c.r3 - c.r4| ≤ d c ∧ 0 < d c := by
  rw [isValid_true_iff] at hv
  push_neg at hv
  exact ⟨hv.1, hv.2.1, lt_of_le_of_ne (d_nonneg c) (Ne.symm hv.2.2)⟩

/-! ## Algebra of the circle-circle intersection construction -/

theorem aLen_mul (c : LinkageConfig) (hd : d c ≠ 0) :
    aLen c * (2 * d c) = c.r3 ^ 2 - c.r4 ^ 2 + d c ^ 2 := by
  rw [aLen, ← d_sq]
  field_simp

theorem r3sq_sub_aLen_sq (c : LinkageConfig) (hd : d c ≠ 0) :
    c.r3 ^ 2 - aLen c ^ 2 =
      (c.r3 + c.r4 - d c) * (d c + c.r4 - c.r3) * (d c + c.r3 - c.r4) *
        (d c + c.r3 + c.r4) / (4 * d c ^ 2) := by
  rw [aLen, ← d_sq]
  field_simp
  ring

theorem r3sq_sub_aLen_sq_nonneg (c : LinkageConfig)
    (hle : d c ≤ c.r3 + c.r4) (hge : |c.r3 - c.r4| ≤ d c) (hd : 0 < d c) :
    0 ≤ c.r3 ^ 2 - aLen c ^ 2 := by
  obtain ⟨hga, hgb⟩ := abs_le.mp hge
  rw [r3sq_sub_aLen_sq c hd.ne']
  have h1 : 0 ≤ c.r3 + c.r4 - d c := by linarith
  have h2 : 0 ≤ d c + c.r4 - c.r3 := by linarith
  have h3 : 0 ≤ d c + c.r3 - c.r4 := by linarith
  have h4 : 0 ≤ d c + c.r3 + c.r4 := by linarith
  have h5 : (0:ℝ) ≤ 4 * d c ^ 2 := by positivity
  exact div_nonneg (mul_nonneg (mul_nonneg (mul_nonneg h1 h2) h3) h4) h5

theorem hLen_sq (c : LinkageConfig)
    (hle : d c ≤ c.r3 + c.r4) (hge : |c.r3 - c.r4| ≤ d c) (hd : 0 < d c) :
    hLen c ^ 2 = c.r3 ^ 2 - aLen c ^ 2 := by
  rw [hLen, Real.sq_sqrt (le_max_left _ _),
    max_eq_right (r3sq_sub_aLen_sq_nonneg c hle hge hd)]

theorem pyth (c : LinkageConfig) :
    (jointAx c - c.r1) ^ 2 + (jointAy c - 0) ^ 2 = d c ^ 2 := by
  rw [d_sq, d2]

theorem distBA_sq (c : LinkageConfig) (m : AssemblyMode) (hd : d c ≠ 0) :
    (selBx c m - jointAx c) ^ 2 + (selBy c m - jointAy c) ^ 2 =
      aLen c ^ 2 + hLen c ^ 2 := by
  have hp := pyth c
  cases m <;>
    · simp only [selBx, selBy, bx1, by1, bx2, by2, footX, footY]
      field_simp
      linear_combination (aLen c ^ 2 + hLen c ^ 2) * hp

theorem distBP2_sq (c : LinkageConfig) (m : AssemblyMode) (hd : d c ≠ 0) :
    (selBx c m - c.r1) ^ 2 + (selBy c m - 0) ^ 2 =
      (aLen c - d c) ^ 2 + hLen c ^ 2 := by
  have hp := pyth c
  cases m <;>
    · simp only [selBx, selBy, bx1, by1, bx2, by2, footX, footY]
      field_simp
      linear_combination ((aLen c - d c) ^ 2 + hLen c ^ 2) * hp

theorem distBA_sq_eq_r3sq (c : LinkageConfig) (m : AssemblyMode)
    (hle : d c ≤ c.r3 + c.r4) (hge : |c.r3 - c.r4| ≤ d c) (hd : 0 < d c) :
    (selBx c m - jointAx c) ^ 2 + (selBy c m - jointAy c) ^ 2 = c.r3 ^ 2 := by
  rw [distBA_sq c m hd.ne', hLen_sq c hle hge hd]
  ring

theorem distBP2_sq_eq_r4sq (c : LinkageConfig) (m : AssemblyMode)
    (hle : d c ≤ c.r3 + c.r4) (hge : |c.r3 - c.r4| ≤ d c) (hd : 0 < d c) :
    (selBx c m - c.r1) ^ 2 + (selBy c m - 0) ^ 2 = c.r4 ^ 2 := by
  rw [distBP2_sq c m hd.ne', hLen_sq c hle hge hd]
  linear_combination - aLen_mul c hd.ne'

/-! ## Evaluation at the concrete reference configurations -/

theorem cfg0_jointAx : jointAx cfg0 = 2 := by
  norm_num [jointAx, cfg0, toRad]

theorem cfg0_jointAy : jointAy cfg0 = 0 := by
  norm_num [jointAy, cfg0, toRad]

theorem cfg0_d : d cfg0 = 1 := by
  have h2 : d2 cfg0 = 1 := by
    rw [d2, cfg0_jointAx, cfg0_jointAy]
    norm_num [cfg0]
  rw [d, h2, Real.sqrt_one]

theorem cfg0_valid (m : AssemblyMode) : (solveLinkage cfg0 m).isValid = true := by
  rw [isValid_true_iff, cfg0_d]
  have habs : |(3.5:ℝ) - 4| = 0.5 := by
    rw [abs_sub_comm, abs_of_nonneg] <;> norm_num
  simp only [cfg0]
  rw [habs]
  norm_num

theorem cex_jointAx : jointAx cexCfg = 1 := by
  norm_num [jointAx, cexCfg, toRad]

theorem cex_jointAy : jointAy cexCfg = 0 := by
  norm_num [jointAy, cexCfg, toRad]

theorem cex_d : d cexCfg = 9 := by
  have h2 : d2 cexCfg = 81 := by
    rw [d2, cex_jointAx, cex_jointAy]
    norm_num [cexCfg]
  have h9 : (81:ℝ) = 9 ^ 2 := by norm_num
  rw [d, h2, h9, Real.sqrt_sq (by norm_num : (0:ℝ) ≤ 9)]

theorem cex_invalid (m : AssemblyMode) : (solveLinkage cexCfg m).isValid = false := by
  rw [isValid_false_iff, cex_d]
  left
  norm_num [cexCfg]

/-! ## Angle-range helper -/

theorem toDeg_atan2_mem (y x : ℝ) :
    -180 < toDeg (atan2 y x) ∧ toDeg (atan2 y x) ≤ 180 := by
  have hpi : 0 < Real.pi := Real.pi_pos
  have h1 : -Real.pi < atan2 y x := Complex.neg_pi_lt_arg _
  have h2 : atan2 y x ≤ Real.pi := Complex.arg_le_pi _
  constructor
  · rw [toDeg, lt_div_iff₀ hpi]
    linarith
  · rw [toDeg, div_le_iff₀ hpi]
    linarith

/-! ## The claims -/

/-- Claim C1: whenever the solver reports a valid pose (with positive link
lengths), the returned joint B lies exactly on both constraint circles: its
distance to the returned joint A is r3 and its distance to the second fixed
pivot (r1, 0) is r4, over exact real arithmetic. -/
theorem solveLinkage_circle_membership (c : LinkageConfig) (m : AssemblyMode)
    (h1 : 0 < c.r1) (h2 : 0 < c.r2) (h3 : 0 < c.r3) (h4 : 0 < c.r4)
    (hv : (solveLinkage c m).isValid = true) :
    ∃ bx b_y : ℝ,
      (solveLinkage c m).Bx = JsNum.fin bx ∧
      (solveLinkage c m).By = JsNum.fin b_y ∧
      (solveLinkage c m).Ax = JsNum.fin (jointAx c) ∧
      (solveLinkage c m).Ay = JsNum.fin (jointAy c) ∧
      Real.sqrt ((bx - jointAx c) ^ 2 + (b_y - jointAy c) ^ 2) = c.r3 ∧
      Real.sqrt ((bx - c.r1) ^ 2 + (b_y - 0) ^ 2) = c.r4 := by
  obtain ⟨hle, hge, hd⟩ := valid_bounds c m hv
  refine ⟨selBx c m, selBy c m, ?_, ?_, ?_, ?_, ?_, ?_⟩
  · rw [solveLinkage_valid_eq c m hv]
  · rw [solveLinkage_valid_eq c m hv]
  · rw [solveLinkage_valid_eq c m hv]
  · rw [solveLinkage_valid_eq c m hv]
  · rw [distBA_sq_eq_r3sq c m hle hge hd]
    exact Real.sqrt_sq h3.le
  · rw [distBP2_sq_eq_r4sq c m hle hge hd]
    exact Real.sqrt_sq h4.le

theorem solveLinkage_circle_membership_witness :
    ∃ bx b_y : ℝ,
      (solveLinkage cfg0 AssemblyMode.opn).Bx = JsNum.fin bx ∧
      (solveLinkage cfg0 AssemblyMode.opn).By = JsNum.fin b_y ∧
      (solveLinkage cfg0 AssemblyMode.opn).Ax = JsNum.fin (jointAx cfg0) ∧
      (solveLinkage cfg0 AssemblyMode.opn).Ay = JsNum.fin (jointAy cfg0) ∧
      Real.sqrt ((bx - jointAx cfg0) ^ 2 + (b_y - jointAy cfg0) ^ 2) = cfg0.r3 ∧
      Real.sqrt ((bx - cfg0.r1) ^ 2 + (b_y - 0) ^ 2) = cfg0.r4 :=
  solveLinkage_circle_membership cfg0 AssemblyMode.opn
    (by norm_num [cfg0]) (by norm_num [cfg0]) (by norm_num [cfg0]) (by norm_num [cfg0])
    (cfg0_valid AssemblyMode.opn)

/-- Claim C2: the solver reports an invalid pose exactly when the validity
test fails, the test being `|r3 - r4| ≤ d ≤ r3 + r4` together with `d > 0`,
where d is the distance from the crank joint `(r2 cos θ2, r2 sin θ2)` to the
second fixed pivot `(r1, 0)`. -/
theorem solveLinkage_validity_test (c : LinkageConfig) (m : AssemblyMode) :
    (solveLinkage c m).isValid = false ↔
      ¬(|c.r3 - c.r4| ≤
          Real.sqrt ((c.r2 * Real.cos (toRad c.theta2) - c.r1) ^ 2 +
            (c.r2 * Real.sin (toRad c.theta2) - 0) ^ 2) ∧
        Real.sqrt ((c.r2 * Real.cos (toRad c.theta2) - c.r1) ^ 2 +
            (c.r2 * Real.sin (toRad c.theta2) - 0) ^ 2) ≤ c.r3 + c.r4 ∧
        0 < Real.sqrt ((c.r2 * Real.cos (toRad c.theta2) - c.r1) ^ 2 +
            (c.r2 * Real.sin (toRad c.theta2) - 0) ^ 2)) := by
  show (solveLinkage c m).isValid = false ↔
    ¬(|c.r3 - c.r4| ≤ d c ∧ d c ≤ c.r3 + c.r4 ∧ 0 < d c)
  have hd0 := d_nonneg c
  rw [isValid_false_iff]
  constructor
  · rintro (h | h | h) ⟨ha, hb, hc⟩
    · linarith
    · linarith
    · linarith
  · intro h
    by_contra hn
    push_neg at hn
    obtain ⟨hgt, hlt, hne⟩ := hn
    exact h ⟨hlt, hgt, lt_of_le_of_ne hd0 (Ne.symm hne)⟩

/-- Claim C3 counterexample: at the unreachable configuration
(r1 = 10, r2 = r3 = r4 = 1, θ2 = 0) the pose is invalid, yet its `Ax`
field is the finite value 1, not the NaN sentinel. -/
theorem invalid_pose_Ax_finite_cex :
    (solveLinkage cexCfg AssemblyMode.opn).isValid = false ∧
    (solveLinkage cexCfg AssemblyMode.opn).Ax = JsNum.fin 1 ∧
    (solveLinkage cexCfg AssemblyMode.opn).Ax ≠ JsNum.nan := by
  have hv := cex_invalid AssemblyMode.opn
  have he := solveLinkage_invalid_eq cexCfg AssemblyMode.opn hv
  refine ⟨hv, ?_, ?_⟩
  · rw [he]
    show JsNum.fin (jointAx cexCfg) = JsNum.fin 1
    rw [cex_jointAx]
  · rw [he]
    simp

/-- Claim C3 (amended): whenever the solver reports an invalid pose, the
derived fields Bx, By, Cx, Cy, theta3, theta4 are all the NaN sentinel,
while Ax and Ay are finite values (never NaN). -/
theorem invalid_pose_nan_fields (c : LinkageConfig) (m : AssemblyMode)
    (hv : (solveLinkage c m).isValid = false) :
    (solveLinkage c m).Bx = JsNum.nan ∧ (solveLinkage c m).By = JsNum.nan ∧
    (solveLinkage c m).Cx = JsNum.nan ∧ (solveLinkage c m).Cy = JsNum.nan ∧
    (solveLinkage c m).theta3 = JsNum.nan ∧ (solveLinkage c m).theta4 = JsNum.nan ∧
    (solveLinkage c m).Ax ≠ JsNum.nan ∧ (solveLinkage c m).Ay ≠ JsNum.nan := by
  rw [solveLinkage_invalid_eq c m hv]
  refine ⟨rfl, rfl, rfl, rfl, rfl, rfl, ?_, ?_⟩ <;> simp

theorem invalid_pose_nan_fields_witness :
    (solveLinkage cexCfg AssemblyMode.crossed).Bx = JsNum.nan ∧
    (solveLinkage cexCfg AssemblyMode.crossed).By = JsNum.nan ∧
    (solveLinkage cexCfg AssemblyMode.crossed).Cx = JsNum.nan ∧
    (solveLinkage cexCfg AssemblyMode.crossed).Cy = JsNum.nan ∧
    (solveLinkage cexCfg AssemblyMode.crossed).theta3 = JsNum.nan ∧
    (solveLinkage cexCfg AssemblyMode.crossed).theta4 = JsNum.nan ∧
    (solveLinkage cexCfg AssemblyMode.crossed).Ax ≠ JsNum.nan ∧
    (solveLinkage cexCfg AssemblyMode.crossed).Ay ≠ JsNum.nan :=
  invalid_pose_nan_fields cexCfg AssemblyMode.crossed (cex_invalid AssemblyMode.crossed)

/-- Claim C10: even on the invalid branch, Ax and Ay hold the finite computed
crank-joint position `(r2 cos θ2, r2 sin θ2)`. -/
theorem invalid_pose_keeps_crank_joint (c : LinkageConfig) (m : AssemblyMode)
    (hv : (solveLinkage c m).isValid = false) :
    (solveLinkage c m).Ax = JsNum.fin (c.r2 * Real.cos (toRad c.theta2)) ∧
    (solveLinkage c m).Ay = JsNum.fin (c.r2 * Real.sin (toRad c.theta2)) := by
  rw [solveLinkage_invalid_eq c m hv]
  exact ⟨rfl, rfl⟩

theorem invalid_pose_keeps_crank_joint_witness :
    (solveLinkage cexCfg AssemblyMode.opn).Ax =
      JsNum.fin (cexCfg.r2 * Real.cos (toRad cexCfg.theta2)) ∧
    (solveLinkage cexCfg AssemblyMode.opn).Ay =
      JsNum.fin (cexCfg.r2 * Real.sin (toRad cexCfg.theta2)) :=
  invalid_pose_keeps_crank_joint cexCfg AssemblyMode.opn (cex_invalid AssemblyMode.opn)

/-- Claim C7: when r3 + r4 < r1 - r2 (with positive link lengths), the two
constraint circles can never meet — the joint-to-pivot distance d is at least
r1 - r2 — so the solver reports an invalid pose for every driver angle and
both assembly modes. -/
theorem unreachable_always_invalid (c : LinkageConfig) (m : AssemblyMode)
    (h1 : 0 < c.r1) (h2 : 0 < c.r2) (h3 : 0 < c.r3) (h4 : 0 < c.r4)
    (hfar : c.r3 + c.r4 < c.r1 - c.r2) :
    (solveLinkage c m).isValid = false := by
  rw [isValid_false_iff]
  left
  have hAx : jointAx c ≤ c.r2 := by
    rw [jointAx]
    calc c.r2 * Real.cos (toRad c.theta2) ≤ c.r2 * 1 :=
          mul_le_mul_of_nonneg_left (Real.cos_le_one _) h2.le
      _ = c.r2 := mul_one _
  have hA2 : jointAx c ^ 2 + jointAy c ^ 2 = c.r2 ^ 2 := by
    rw [jointAx, jointAy]
    linear_combination c.r2 ^ 2 * Real.sin_sq_add_cos_sq (toRad c.theta2)
  have hsq : (c.r1 - c.r2) ^ 2 ≤ d c ^ 2 := by
    rw [d_sq, d2]
    nlinarith [mul_nonneg h1.le (sub_nonneg.mpr hAx)]
  have h0 : 0 ≤ c.r1 - c.r2 := by linarith
  have hd : c.r1 - c.r2 ≤ d c := by
    nlinarith [d_nonneg c]
  linarith

theorem unreachable_always_invalid_witness :
    (solveLinkage cexCfg AssemblyMode.opn).isValid = false ∧
    (solveLinkage cexCfg AssemblyMode.crossed).isValid = false :=
  ⟨unreachable_always_invalid cexCfg AssemblyMode.opn
      (by norm_num [cexCfg]) (by norm_num [cexCfg]) (by norm_num [cexCfg])
      (by norm_num [cexCfg]) (by norm_num [cexCfg]),
    unreachable_always_invalid cexCfg AssemblyMode.crossed
      (by norm_num [cexCfg]) (by norm_num [cexCfg]) (by norm_num [cexCfg])
      (by norm_num [cexCfg]) (by norm_num [cexCfg])⟩

/-- Claim C5: the solver is total — on the branch that divides by d the
validity test has already forced d ≠ 0, the square-root argument for the
half-chord is clamped to be non-negative, and the invalid-assembly case is an
ordinary returned pose, never a fault. -/
theorem solveLinkage_total (c : LinkageConfig) (m : AssemblyMode) :
    ((solveLinkage c m).isValid = true → d c ≠ 0) ∧
    0 ≤ max 0 (c.r3 ^ 2 - aLen c ^ 2) ∧
    ((solveLinkage c m).isValid = false →
      solveLinkage c m =
        { Ax := .fin (jointAx c), Ay := .fin (jointAy c),
          Bx := .nan, By := .nan, Cx := .nan, Cy := .nan,
          theta3 := .nan, theta4 := .nan,
          isValid := false, mode := modeLabel m }) := by
  refine ⟨?_, le_max_left _ _, solveLinkage_invalid_eq c m⟩
  intro hv
  exact (valid_bounds c m hv).2.2.ne'

theorem solveLinkage_total_witness :
    d cfg0 ≠ 0 ∧ (solveLinkage cexCfg AssemblyMode.opn).Bx = JsNum.nan :=
  ⟨(solveLinkage_total cfg0 AssemblyMode.opn).1 (cfg0_valid AssemblyMode.opn),
    by rw [(solveLinkage_total cexCfg AssemblyMode.opn).2.2 (cex_invalid AssemblyMode.opn)]⟩

/-- Claim C6: on every valid pose the returned angles theta3 and theta4, in
degrees, lie in the half-open interval (-180, 180]. -/
theorem valid_pose_angle_range (c : LinkageConfig) (m : AssemblyMode)
    (hv : (solveLinkage c m).isValid = true) :
    ∃ t3 t4 : ℝ,
      (solveLinkage c m).theta3 = JsNum.fin t3 ∧
      (solveLinkage c m).theta4 = JsNum.fin t4 ∧
      -180 < t3 ∧ t3 ≤ 180 ∧ -180 < t4 ∧ t4 ≤ 180 := by
  refine ⟨toDeg (theta3Rad c m), toDeg (theta4Rad c m), ?_, ?_, ?_, ?_, ?_, ?_⟩
  · rw [solveLinkage_valid_eq c m hv]
  · rw [solveLinkage_valid_eq c m hv]
  · rw [theta3Rad]
    exact (toDeg_atan2_mem _ _).1
  · rw [theta3Rad]
    exact (toDeg_atan2_mem _ _).2
  · rw [theta4Rad]
    exact (toDeg_atan2_mem _ _).1
  · rw [theta4Rad]
    exact (toDeg_atan2_mem _ _).2

theorem valid_pose_angle_range_witness :
    ∃ t3 t4 : ℝ,
      (solveLinkage cfg0 AssemblyMode.opn).theta3 = JsNum.fin t3 ∧
      (solveLinkage cfg0 AssemblyMode.opn).theta4 = JsNum.fin t4 ∧
      -180 < t3 ∧ t3 ≤ 180 ∧ -180 < t4 ∧ t4 ≤ 180 :=
  valid_pose_angle_range cfg0 AssemblyMode.opn (cfg0_valid AssemblyMode.opn)

/-! ## Trajectory sampler claims -/

theorem filterMap_guard_eq {α β : Type _} (p : α → Bool) (g : α → β) :
    ∀ l : List α,
      (l.filterMap fun a => if p a then some (g a) else none) =
        (l.filter p).map g
  | [] => rfl
  | a :: l => by
    by_cases h : p a <;>
      simp [List.filterMap_cons, List.filter_cons, h, filterMap_guard_eq p g l]

/-- Claim C4: the trajectory is sampled at the 181 driver angles
0, 2, …, 360: every returned point comes from a valid solver call at one of
these angles with only theta2 overridden, every valid sampled angle
contributes its point, and the result is strictly increasing in theta2. -/
theorem computeTrajectory_spec (c : LinkageConfig) (m : AssemblyMode) :
    (∀ p ∈ computeTrajectory c m, ∃ k : ℕ, k ≤ 180 ∧
        (solveLinkage { c with theta2 := (2 * k : ℝ) } m).isValid = true ∧
        p = trajPoint c m (2 * k : ℝ)) ∧
    (∀ k : ℕ, k ≤ 180 →
        (solveLinkage { c with theta2 := (2 * k : ℝ) } m).isValid = true →
        trajPoint c m (2 * k : ℝ) ∈ computeTrajectory c m) ∧
    (computeTrajectory c m).Pairwise (fun p q => p.theta2 < q.theta2) := by
  refine ⟨?_, ?_, ?_⟩
  · intro p hp
    rw [computeTrajectory, List.mem_filterMap] at hp
    obtain ⟨t2, ht2, hg⟩ := hp
    rw [List.mem_map] at ht2
    obtain ⟨k, hk, rfl⟩ := ht2
    rw [List.mem_range] at hk
    refine ⟨k, by omega, ?_, ?_⟩
    · by_contra hv
      rw [if_neg hv] at hg
      exact Option.noConfusion hg
    · by_cases hv : (solveLinkage { c with theta2 := (2 * k : ℝ) } m).isValid = true
      · rw [if_pos hv] at hg
        exact (Option.some.inj hg).symm
      · rw [if_neg hv] at hg
        exact Option.noConfusion hg
  · intro k hk hv
    rw [computeTrajectory, List.mem_filterMap]
    refine ⟨(2 * k : ℝ), List.mem_map.mpr ⟨k, List.mem_range.mpr (by omega), rfl⟩, ?_⟩
    rw [if_pos hv]
  · rw [computeTrajectory, filterMap_guard_eq]
    rw [List.pairwise_map]
    have hpw : ((List.range 181).map fun k : ℕ => (2 * k : ℝ)).Pairwise (· < ·) := by
      rw [List.pairwise_map]
      refine (List.pairwise_lt_range 181).imp ?_
      intro a b hab
      have : (a : ℝ) < (b : ℝ) := Nat.cast_lt.mpr hab
      linarith
    exact (hpw.sublist (List.filter_sublist _)).imp (fun h => h)

theorem computeTrajectory_spec_witness :
    trajPoint cfg0 AssemblyMode.opn (2 * (0 : ℕ) : ℝ) ∈
      computeTrajectory cfg0 AssemblyMode.opn := by
  have hc : ({ cfg0 with theta2 := (2 * (0 : ℕ) : ℝ) } : LinkageConfig) = cfg0 := by
    norm_num [cfg0]
  refine (computeTrajectory_spec cfg0 AssemblyMode.opn).2.1 0 (by norm_num) ?_
  rw [hc]
  exact cfg0_valid AssemblyMode.opn

/-- Claim C9: the trajectory is a deterministic function of the geometry
fields and the mode only — two configurations agreeing on r1, r2, r3, r4, r6
and beta (theta2 may differ) yield identical ordered trajectories. -/
theorem computeTrajectory_theta2_independent (c c' : LinkageConfig) (m : AssemblyMode)
    (h1 : c.r1 = c'.r1) (h2 : c.r2 = c'.r2) (h3 : c.r3 = c'.r3) (h4 : c.r4 = c'.r4)
    (h6 : c.r6 = c'.r6) (hb : c.beta = c'.beta) :
    computeTrajectory c m = computeTrajectory c' m := by
  have hrec : ∀ t2 : ℝ,
      ({ c with theta2 := t2 } : LinkageConfig) = { c' with theta2 := t2 } := by
    intro t2
    cases c
    cases c'
    simp_all
  rw [computeTrajectory, computeTrajectory]
  congr 1
  funext t2
  simp only [trajPoint]
  rw [hrec t2]

theorem computeTrajectory_theta2_independent_witness :
    computeTrajectory cfg0 AssemblyMode.opn = computeTrajectory cfg0' AssemblyMode.opn :=
  computeTrajectory_theta2_independent cfg0 cfg0' AssemblyMode.opn
    rfl rfl rfl rfl rfl rfl

/-! ## Branch symmetry -/

theorem candB_eq_iff_hLen_zero (c : LinkageConfig) (hd : 0 < d c) :
    (bx1 c = bx2 c ∧ by1 c = by2 c) ↔ hLen c = 0 := by
  constructor
  · rintro ⟨hx, hy⟩
    by_contra hne
    rw [bx1, bx2] at hx
    rw [by1, by2] at hy
    have hx0 : hLen c * jointAy c = 0 := by
      field_simp [hd.ne'] at hx
      linarith
    have hy0 : hLen c * (c.r1 - jointAx c) = 0 := by
      field_simp [hd.ne'] at hy
      linarith
    have hAy : jointAy c = 0 := by
      rcases mul_eq_zero.mp hx0 with h | h
      · exact absurd h hne
      · exact h
    have hAx : c.r1 - jointAx c = 0 := by
      rcases mul_eq_zero.mp hy0 with h | h
      · exact absurd h hne
      · exact h
    have hd2 : d2 c = 0 := by
      rw [d2, hAy]
      nlinarith [hAx]
    have : d c = 0 := by
      rw [d, hd2, Real.sqrt_zero]
    exact absurd this hd.ne'
  · intro h0
    constructor
    · rw [bx1, bx2, h0]
      ring
    · rw [by1, by2, h0]
      ring

theorem hLen_zero_iff_tangent (c : LinkageConfig)
    (hle : d c ≤ c.r3 + c.r4) (hge : |c.r3 - c.r4| ≤ d c) (hd : 0 < d c) :
    hLen c = 0 ↔ (d c = c.r3 + c.r4 ∨ d c = |c.r3 - c.r4|) := by
  have hnn := r3sq_sub_aLen_sq_nonneg c hle hge hd
  have hfac := r3sq_sub_aLen_sq c hd.ne'
  have hrsum : 0 < c.r3 + c.r4 := lt_of_lt_of_le hd hle
  rw [hLen, Real.sqrt_eq_zero']
  constructor
  · intro hle0
    have hz : c.r3 ^ 2 - aLen c ^ 2 = 0 :=
      le_antisymm (max_le_iff.mp hle0).2 hnn
    rw [hz] at hfac
    rcases div_eq_zero_iff.mp hfac.symm with hp | h4
    · rcases mul_eq_zero.mp hp with hp3 | hF4
      · rcases mul_eq_zero.mp hp3 with hp2 | hF3
        · rcases mul_eq_zero.mp hp2 with hF1 | hF2
          · left
            linarith
          · right
            have h1 := le_abs_self (c.r3 - c.r4)
            linarith
        · right
          have h1 := neg_le_abs (c.r3 - c.r4)
          linarith
      · exfalso
        linarith
    · exfalso
      have : d c ^ 2 ≠ 0 := pow_ne_zero 2 hd.ne'
      nlinarith
  · intro hca
    have hz : c.r3 ^ 2 - aLen c ^ 2 = 0 := by
      rw [hfac]
      have hprod : (c.r3 + c.r4 - d c) * (d c + c.r4 - c.r3) * (d c + c.r3 - c.r4) *
          (d c + c.r3 + c.r4) = 0 := by
        rcases hca with h | h
        · have hF1 : c.r3 + c.r4 - d c = 0 := by linarith
          rw [hF1]
          ring
        · rcases le_total c.r4 c.r3 with hor | hor
          · rw [abs_of_nonneg (by linarith : (0:ℝ) ≤ c.r3 - c.r4)] at h
            have hF2 : d c + c.r4 - c.r3 = 0 := by linarith
            rw [hF2]
            ring
          · rw [abs_of_nonpos (by linarith : c.r3 - c.r4 ≤ 0)] at h
            have hF3 : d c + c.r3 - c.r4 = 0 := by linarith
            rw [hF3]
            ring
      rw [hprod, zero_div]
    rw [max_le_iff]
    exact ⟨le_refl 0, hz.le⟩

/-- Claim C8: for a configuration valid in both modes, the two modes agree on
the crank joint A, each mode deterministically picks its fixed intersection
candidate, and the two candidates for B coincide exactly when the half-chord
h vanishes, which happens exactly at tangency: d = r3 + r4 or d = |r3 - r4|. -/
theorem branch_symmetry (c : LinkageConfig)
    (hv1 : (solveLinkage c AssemblyMode.opn).isValid = true)
    (hv2 : (solveLinkage c AssemblyMode.crossed).isValid = true) :
    (solveLinkage c AssemblyMode.opn).Ax = (solveLinkage c AssemblyMode.crossed).Ax ∧
    (solveLinkage c AssemblyMode.opn).Ay = (solveLinkage c AssemblyMode.crossed).Ay ∧
    (solveLinkage c AssemblyMode.opn).Bx = JsNum.fin (bx1 c) ∧
    (solveLinkage c AssemblyMode.opn).By = JsNum.fin (by1 c) ∧
    (solveLinkage c AssemblyMode.crossed).Bx = JsNum.fin (bx2 c) ∧
    (solveLinkage c AssemblyMode.crossed).By = JsNum.fin (by2 c) ∧
    ((bx1 c = bx2 c ∧ by1 c = by2 c) ↔ hLen c = 0) ∧
    (hLen c = 0 ↔ (d c = c.r3 + c.r4 ∨ d c = |c.r3 - c.r4|)) := by
  obtain ⟨hle, hge, hd⟩ := valid_bounds c AssemblyMode.opn hv1
  refine ⟨?_, ?_, ?_, ?_, ?_, ?_, candB_eq_iff_hLen_zero c hd,
    hLen_zero_iff_tangent c hle hge hd⟩
  · rw [solveLinkage_valid_eq c AssemblyMode.opn hv1,
      solveLinkage_valid_eq c AssemblyMode.crossed hv2]
  · rw [solveLinkage_valid_eq c AssemblyMode.opn hv1,
      solveLinkage_valid_eq c AssemblyMode.crossed hv2]
  · rw [solveLinkage_valid_eq c AssemblyMode.opn hv1]
    rfl
  · rw [solveLinkage_valid_eq c AssemblyMode.opn hv1]
    rfl
  · rw [solveLinkage_valid_eq c AssemblyMode.crossed hv2]
    rfl
  · rw [solveLinkage_valid_eq c AssemblyMode.crossed hv2]
    rfl

theorem branch_symmetry_witness :
    (solveLinkage cfg0 AssemblyMode.opn).Ax = (solveLinkage cfg0 AssemblyMode.crossed).Ax ∧
    (solveLinkage cfg0 AssemblyMode.opn).Ay = (solveLinkage cfg0 AssemblyMode.crossed).Ay ∧
    (solveLinkage cfg0 AssemblyMode.opn).Bx = JsNum.fin (bx1 cfg0) ∧
    (solveLinkage cfg0 AssemblyMode.opn).By = JsNum.fin (by1 cfg0) ∧
    (solveLinkage cfg0 AssemblyMode.crossed).Bx = JsNum.fin (bx2 cfg0) ∧
    (solveLinkage cfg0 AssemblyMode.crossed).By = JsNum.fin (by2 cfg0) ∧
    ((bx1 cfg0 = bx2 cfg0 ∧ by1 cfg0 = by2 cfg0) ↔ hLen cfg0 = 0) ∧
    (hLen cfg0 = 0 ↔ (d cfg0 = cfg0.r3 + cfg0.r4 ∨ d cfg0 = |cfg0.r3 - cfg0.r4|)) :=
  branch_symmetry cfg0 (cfg0_valid AssemblyMode.opn) (cfg0_valid AssemblyMode.crossed)

end FourBar
